import Mathlib

/-!
Verification development for the staged pass-manager scheduler of
`src/dpcomp/src/compiler/compiler.cpp` (the `plier` compiler context).

The C++ code is shallowly embedded:

* the program representation (`mlir::ModuleOp`) becomes `ModuleOp`, carrying
  the marker channel (a list of marker names attached to the module) and an
  abstract payload `state : Nat` standing for the rest of the module;
* a stage's pass pipeline (`mlir::PassManager::run`) is an opaque function
  `ModuleOp → StageOut` returning success/failure, the (possibly mutated)
  module, and the diagnostics the passes emitted during the run;
* `llvm::StringRef` becomes `StringRef`: the address of the character
  buffer (`data : Nat`, modelling `StringRef::data()`) together with the
  character content (`str : String`).  `mlir::StringAttr` values are
  uniqued by content, so they are modelled by `String` with propositional
  equality;
* `PassManagerSchedule`'s construction (`add_stage` + jump resolution) is
  `buildSchedule`; each C++ `assert` is modelled as construction failure
  (`none`), matching a debug build where a failed assertion aborts;
* the do-while loop of `PassManagerSchedule::run` is `schedRunAux`, made
  total with a fuel parameter: `RunResult.running` means the fuel ran out
  while the loop was still going (the C++ loop has no bound and may run
  forever), and `RunResult.invalid` marks the out-of-bounds access
  `stages[0]` that the C++ performs on an empty schedule (undefined
  behaviour).  The visited stage indices and emitted diagnostics are
  recorded as ghost data alongside the result.
-/

/-- Severity of an MLIR diagnostic (`mlir::DiagnosticSeverity`). -/
inductive Severity where
  | error
  | warning
  | remark
  | note
deriving DecidableEq

/-- One MLIR diagnostic: severity, primary message and attached notes. -/
structure Diagnostic where
  severity : Severity
  message : String
  notes : List String
deriving DecidableEq

/-- The program representation: the marker channel attached to the module
(the list of active pipeline-jump marker names) plus an abstract payload
standing for the rest of the module's contents. -/
structure ModuleOp where
  markers : List String
  state : Nat
deriving DecidableEq

/-- Outcome of running one stage's pass pipeline (`pm.run(op)`): a success
flag (`mlir::LogicalResult`), the module as the passes left it (also on
failure the module keeps its partially mutated state), and the diagnostics
emitted while the passes ran. -/
structure StageOut where
  succeeded : Bool
  module : ModuleOp
  diags : List Diagnostic

/-- A fully constructed `PassManagerStage`: its pass pipeline as an opaque
function, its jump edges `(marker name, target stage index)` in declaration
order (`jumps` in the C++), and the default next stage (`next_stage`),
stored as an index into the schedule's stage array. -/
structure Stage where
  run : ModuleOp → StageOut
  jumps : List (String × Nat)
  next_stage : Option Nat

/-- Modelled from the spec: `plier::get_pipeline_jump_markers` (declared in
`plier/transforms/pipeline_utils.hpp`, its definition is not under `src/`)
reads the set of active marker names currently present on the
representation's marker channel. -/
def get_pipeline_jump_markers (m : ModuleOp) : Option (List String) :=
  some m.markers

/-- Modelled from the spec: `plier::remove_pipeline_jump_marker` (not under
`src/`) clears the given marker name from the representation's marker
channel, leaving the other markers in place. -/
def remove_pipeline_jump_marker (m : ModuleOp) (name : String) : ModuleOp :=
  { m with markers := m.markers.erase name }

/-- Inner loop of `PassManagerStage::get_jump`: scan the candidate marker
names `ns` for the first one equal to the jump-edge name `j`, returning the
matching candidate. -/
def find_in_names (j : String) (ns : List String) : Option String :=
  match ns with
  | [] => none
  | c :: rest => if j = c then some c else find_in_names j rest

/-- Outer loop of `PassManagerStage::get_jump`: scan the jump edges in
declaration order, returning the first whose name matches some candidate,
together with the matched candidate name. -/
def get_jump_go (jumps : List (String × Nat)) (ns : List String) :
    Option Nat × Option String :=
  match jumps with
  | [] => (none, none)
  | j :: rest =>
    match find_in_names j.1 ns with
    | some c => (some j.2, some c)
    | none => get_jump_go rest ns

/-- `PassManagerStage::get_jump`: given the (possibly absent) candidate
marker names, return the first declared jump edge whose name is among the
candidates, paired with the matched marker name; `(none, none)` when the
candidate list is absent or nothing matches. -/
def get_jump (jumps : List (String × Nat)) (names : Option (List String)) :
    Option Nat × Option String :=
  match names with
  | none => (none, none)
  | some ns => get_jump_go jumps ns

/-- Result of the schedule's execution loop.  `running` records that the
fuel was exhausted while the C++ loop would still be iterating (at the
given stage index, with the given module state); `invalid` records the
out-of-bounds stage access the C++ performs (undefined behaviour) when the
stage index does not exist. -/
inductive RunResult where
  | success : ModuleOp → RunResult
  | failure : ModuleOp → RunResult
  | running : Nat → ModuleOp → RunResult
  | invalid : Nat → ModuleOp → RunResult
deriving DecidableEq

/-- Decides whether the loop was still iterating when the fuel ran out. -/
def RunResult.isRunningB : RunResult → Bool
  | .running _ _ => true
  | _ => false

/-- Outcome of `PassManagerSchedule::run`: the result together with ghost
instrumentation recording the stage indices visited (in order) and the
diagnostics emitted by the stages that ran. -/
structure RunOutcome where
  trace : List Nat
  diags : List Diagnostic
  result : RunResult

/-- The body of `PassManagerSchedule::run`, its do-while loop made total by
a fuel parameter (the C++ loop is unbounded).  Mirrors the loop body
exactly: fetch the current stage (out of range is undefined behaviour,
recorded as `invalid`), run it, return failure immediately if it failed,
otherwise read the marker channel, resolve a jump with `get_jump`, and
either clear the matched marker and continue at the jump target or fall
through to the default next stage; a missing next stage ends the loop with
success.  The visited indices and emitted diagnostics are ghost data. -/
def schedRunAux (stages : List Stage) : Nat → Nat → ModuleOp → RunOutcome
  | 0, idx, m => ⟨[], [], .running idx m⟩
  | fuel + 1, idx, m =>
    match stages[idx]? with
    | none => ⟨[], [], .invalid idx m⟩
    | some current =>
      let r := current.run m
      if r.succeeded then
        let markers := get_pipeline_jump_markers r.module
        let jt := get_jump current.jumps markers
        match jt.1, jt.2 with
        | some tgt, some matched =>
          let m2 := remove_pipeline_jump_marker r.module matched
          let o := schedRunAux stages fuel tgt m2
          ⟨idx :: o.trace, r.diags ++ o.diags, o.result⟩
        | _, _ =>
          match current.next_stage with
          | some nxt =>
            let o := schedRunAux stages fuel nxt r.module
            ⟨idx :: o.trace, r.diags ++ o.diags, o.result⟩
          | none => ⟨[idx], r.diags, .success r.module⟩
      else ⟨[idx], r.diags, .failure r.module⟩

/-- `PassManagerSchedule::run`: start the loop at the first declared stage
(`stages[0]`). -/
def schedule_run (stages : List Stage) (fuel : Nat) (m : ModuleOp) :
    RunOutcome :=
  schedRunAux stages fuel 0 m

/-- An `llvm::StringRef` as the schedule construction sees it: the address
of the character buffer (`data()`, modelled as a `Nat` identifier of the
buffer object) together with the character content. -/
structure StringRef where
  data : Nat
  str : String
deriving DecidableEq

/-- One entry of the pipeline description handed to `add_stage`: the stage
name, its declared jump-target names (in declaration order), and the pass
pipeline the registry's init function installs. -/
structure StageDesc where
  name : StringRef
  jumps : List StringRef
  run : ModuleOp → StageOut

/-- Lookup in the model of `std::unordered_map<const void *,
PassManagerStage *>`: an association list from buffer address to stage
index (keys are unique because a duplicate key fails construction). -/
def mapFind (m : List (Nat × Nat)) (k : Nat) : Option Nat :=
  match m with
  | [] => none
  | e :: rest => if e.1 = k then some e.2 else mapFind rest k

/-- First phase of `PassManagerSchedule`'s constructor (the `add_stage`
callback): walk the stage descriptors in order, checking
`assert(!name.empty())` and `assert(stages_map.count(name.data()) == 0)`
(both modelled as construction failure) and inserting
`(name.data(), stage index)` into the map.  `i` is the index of the next
stage to be inserted. -/
def buildMap (descs : List StageDesc) (m : List (Nat × Nat)) (i : Nat) :
    Option (List (Nat × Nat)) :=
  match descs with
  | [] => some m
  | d :: rest =>
    if d.name.str = "" then none
    else if (mapFind m d.name.data).isSome then none
    else buildMap rest (m ++ [(d.name.data, i)]) (i + 1)

/-- Second phase of the constructor, for one stage: resolve each declared
jump name through the map (`assert(!jump.empty())`,
`stages_map.find(jump.data())`, `assert(it != stages_map.end())`, both
asserts modelled as failure) and register the edge as
`(StringAttr content, target stage index)`, in declaration order. -/
def resolveJumps (m : List (Nat × Nat)) (js : List StringRef) :
    Option (List (String × Nat)) :=
  match js with
  | [] => some []
  | j :: rest =>
    if j.str = "" then none
    else
      match mapFind m j.data with
      | none => none
      | some t =>
        match resolveJumps m rest with
        | none => none
        | some l => some ((j.str, t) :: l)

/-- Assemble the runtime stages: stage `i` keeps its descriptor's pass
pipeline, gets its resolved jump edges, and is wired to default next stage
`i + 1` exactly when a stage was declared after it (`set_next_stage` is
called on every stage but the last). -/
def buildStagesFrom (m : List (Nat × Nat)) (total : Nat) :
    List StageDesc → Nat → Option (List Stage)
  | [], _ => some []
  | d :: rest, i =>
    match resolveJumps m d.jumps with
    | none => none
    | some js =>
      match buildStagesFrom m total rest (i + 1) with
      | none => none
      | some sts =>
        some (⟨d.run, js, if i + 1 < total then some (i + 1) else none⟩ :: sts)

/-- `PassManagerSchedule`'s constructor: build the address-keyed name map,
then resolve every stage's jump edges and wire the default next-stage
links.  `none` models a failed construction-time assertion. -/
def buildSchedule (descs : List StageDesc) : Option (List Stage) :=
  match buildMap descs [] 0 with
  | none => none
  | some m => buildStagesFrom m descs.length descs 0

/-- Index of the first descriptor whose name buffer is the given address
(the stage a jump with that buffer address resolves to). -/
def idxOfData (descs : List StageDesc) (k : Nat) : Option Nat :=
  match descs with
  | [] => none
  | d :: rest =>
    if d.name.data = k then some 0 else (idxOfData rest k).map (· + 1)

/-- The scoped diagnostic handler's filter (`diag.getSeverity() ==
mlir::DiagnosticSeverity::Error`). -/
def Diagnostic.isError (d : Diagnostic) : Bool :=
  match d.severity with
  | .error => true
  | _ => false

/-- What the handler writes to the buffer for one retained diagnostic: the
diagnostic itself, then each of its notes preceded by a newline. -/
def renderDiag (d : Diagnostic) : String :=
  d.message ++ String.join (d.notes.map (fun nt => "\n" ++ nt))

/-- The buffered diagnostic text after a run: the error-severity
diagnostics (with their notes), rendered in emission order. -/
def collectErrText (ds : List Diagnostic) : String :=
  String.join ((ds.filter Diagnostic.isError).map renderDiag)

/-- Modelled from the spec: `module.print(stream)` (external MLIR
printing) emits a textual dump of the representation's current state. -/
def print_module (m : ModuleOp) : String :=
  "module state " ++ toString m.state ++ " markers " ++ toString m.markers

/-- `CompilerContextImpl::run`: run the schedule under a scoped diagnostic
handler that buffers error-severity diagnostics (with notes); on schedule
failure, append a newline and a dump of the module's current state and
raise one fatal error (`plier::report_error`, not under `src/`, modelled
from the spec as an exceptional return carrying the aggregated text); on
success return normally, discarding the buffer.  `none` stands for a run
the fuel parameter could not finish (the C++ would still be looping, or
hit undefined behaviour on an out-of-range stage). -/
def compilerContextRun (stages : List Stage) (fuel : Nat) (m : ModuleOp) :
    Option (Except String ModuleOp) :=
  let o := schedRunAux stages fuel 0 m
  match o.result with
  | .success m2 => some (Except.ok m2)
  | .failure m2 =>
    some (Except.error
      ("MLIR pipeline failed\n" ++
        (collectErrText o.diags ++ "\n" ++ print_module m2)))
  | _ => none

/-- The `irPrinting` settings block: name allow-lists for printing before
and after a pass (the output stream is not modelled). -/
structure IRPrintingSettings where
  printBefore : List String
  printAfter : List String

/-- `plier::CompilerContext::Settings`, the run-time configuration the
stage constructor consumes. -/
structure Settings where
  verify : Bool
  passStatistics : Bool
  passTimings : Bool
  irDumpStderr : Bool
  irPrinting : Option IRPrintingSettings

/-- Configuration handed to `pm.enableIRPrinting` in the `irPrinting`
branch: the two name-checker predicates and the three boolean flags, in
the order of the call. -/
structure IRPrintCfg where
  shouldPrintBefore : String → Bool
  shouldPrintAfter : String → Bool
  printModuleScope : Bool
  printAfterOnlyOnChange : Bool
  printAfterOnlyOnFailure : Bool

/-- State of the `mlir::PassManager` as the stage constructor configures
it.  `basicIRPrinting` records the argumentless `pm.enableIRPrinting()`
call of the `irDumpStderr` branch. -/
structure PMState where
  verifierEnabled : Bool
  statisticsEnabled : Bool
  timingEnabled : Bool
  basicIRPrinting : Bool
  irPrintingConfig : Option IRPrintCfg

/-- `llvm::StringRef::consume_front`: drop the prefix when present. -/
def consume_front (s pre : String) : String :=
  if pre.isPrefixOf s then s.drop pre.length else s

/-- The MSVC anonymous-namespace decoration stripped first by `Checker`. -/
def anonPrefix1 : String :=
  "`anonymous-namespace" ++ String.singleton (Char.ofNat 39) ++ "::"

/-- The GCC anonymous-namespace decoration stripped second by `Checker`. -/
def anonPrefix2 : String := "\x7banonymous\x7d::"

/-- Strip the anonymous-namespace decorations from a pass name, as the
`Checker` functor does before the name-set lookup. -/
def stripAnonNS (s : String) : String :=
  consume_front (consume_front s anonPrefix1) anonPrefix2

/-- The `Checker` functor: a pass matches when its decoration-stripped
name is contained in the configured name list. -/
def checker (names : List String) (passName : String) : Bool :=
  names.contains (stripAnonNS passName)

/-- The `PassManagerStage` constructor's effect on the MLIR context's
multithreading flag and the pass manager configuration, following the
source order: verifier, statistics, timing, then the `irDumpStderr` branch
(disable multithreading, plain IR printing), then the `irPrinting` branch
(disable multithreading, printing gated by the two checkers, with module
scope on, after-printing only on change, and not only on failure). -/
def mkPassManagerStage (mtEnabled : Bool) (settings : Settings) :
    Bool × PMState :=
  let mt := mtEnabled
  let pm : PMState :=
    ⟨settings.verify, settings.passStatistics, settings.passTimings,
      false, none⟩
  let step1 := if settings.irDumpStderr then
      (false, { pm with basicIRPrinting := true }) else (mt, pm)
  match settings.irPrinting with
  | some p =>
    (false,
      { step1.2 with
        irPrintingConfig := some
          ⟨checker p.printBefore, checker p.printAfter, true, true, false⟩ })
  | none => step1

/-- A pass pipeline that succeeds and leaves the module untouched. -/
def demoRunOk : ModuleOp → StageOut := fun m => ⟨true, m, []⟩

/-- A pass pipeline that fails, emitting one error diagnostic with one
note, leaving the module as it found it. -/
def demoRunFail : ModuleOp → StageOut :=
  fun m => ⟨false, m, [⟨Severity.error, "invalid op", ["see here"]⟩]⟩

/-- A module with two active markers, used to exercise jump resolution. -/
def demoModXY : ModuleOp := ⟨["y", "x"], 5⟩

/-- A module with an empty marker channel. -/
def demoMod0 : ModuleOp := ⟨[], 7⟩

/-- A single stage declaring jump edges `x ↦ 2, y ↦ 3` in that order. -/
def demoJumpStage : Stage := ⟨demoRunOk, [("x", 2), ("y", 3)], none⟩

/-- A failing one-stage schedule. -/
def demoFailStages : List Stage := [⟨demoRunFail, [], none⟩]

/-- Three-stage linear descriptors `A, B, C` with no jump edges, with the
three names in three distinct character buffers. -/
def linDescA : StageDesc := ⟨⟨0, "A"⟩, [], demoRunOk⟩

/-- Second linear stage descriptor. -/
def linDescB : StageDesc := ⟨⟨1, "B"⟩, [], demoRunOk⟩

/-- Third linear stage descriptor. -/
def linDescC : StageDesc := ⟨⟨2, "C"⟩, [], demoRunOk⟩

/-- Two stage descriptors declaring the same name `"A"` held in two
distinct character buffers (addresses 0 and 1). -/
def dupDescs : List StageDesc :=
  [⟨⟨0, "A"⟩, [], demoRunOk⟩, ⟨⟨1, "A"⟩, [], demoRunOk⟩]

/-- One stage whose declared jump name `"A"` lives in a buffer (address 5)
that is not any stage name's buffer, although its content equals the
stage's own name. -/
def danglingDescs : List StageDesc :=
  [⟨⟨0, "A"⟩, [⟨5, "A"⟩], demoRunOk⟩]

/-- First stage of the jump cycle: no jump edges, passes succeed and leave
the module untouched. -/
def cycleDescA : StageDesc := ⟨⟨0, "A"⟩, [], demoRunOk⟩

/-- Second stage of the jump cycle: declares a jump back to `A` (same name
buffer), and its pass pipeline re-asserts the marker `"A"` on every
visit. -/
def cycleDescB : StageDesc :=
  ⟨⟨1, "B"⟩, [⟨0, "A"⟩], fun m => ⟨true, { m with markers := ["A"] }, []⟩⟩

/-- The cyclic pipeline description: `A` then `B`, with `B` jumping back
to `A` and re-asserting the marker on every visit. -/
def cycleDescs : List StageDesc := [cycleDescA, cycleDescB]

/-- The schedule the cyclic description constructs. -/
def cycleStages : List Stage :=
  [⟨cycleDescA.run, [], some 1⟩, ⟨cycleDescB.run, [("A", 0)], none⟩]

/-- The cyclic description with the marker-writing pass removed: `B` keeps
its jump edge to `A` but no longer asserts the marker. -/
def fallDescs : List StageDesc :=
  [⟨⟨0, "A"⟩, [], demoRunOk⟩, ⟨⟨1, "B"⟩, [⟨0, "A"⟩], demoRunOk⟩]

/-- The schedule the fall-through description constructs. -/
def fallStages : List Stage :=
  [⟨demoRunOk, [], some 1⟩, ⟨demoRunOk, [("A", 0)], none⟩]

/-- Settings enabling `irPrinting` with name lists `p1` / `p2`. -/
def demoIRSettings : Settings :=
  ⟨true, false, false, false, some ⟨["p1"], ["p2"]⟩⟩

/-- Settings enabling `irDumpStderr`. -/
def demoDumpSettings : Settings := ⟨true, false, false, true, none⟩

/-- The map entries phase one of the constructor inserts for a descriptor
list whose first stage gets index `i`: one `(buffer address, index)` pair
per stage, in order. -/
def entriesOf : List StageDesc → Nat → List (Nat × Nat)
  | [], _ => []
  | d :: rest, i => (d.name.data, i) :: entriesOf rest (i + 1)

lemma find_in_names_of_not_mem {j : String} {ns : List String} (h : j ∉ ns) :
    find_in_names j ns = none := by
  induction ns with
  | nil => rfl
  | cons c rest ih =>
    simp only [List.mem_cons, not_or] at h
    simp only [find_in_names, if_neg h.1, ih h.2]

lemma find_in_names_of_mem {j : String} {ns : List String} (h : j ∈ ns) :
    find_in_names j ns = some j := by
  induction ns with
  | nil => cases h
  | cons c rest ih =>
    by_cases hc : j = c
    · subst hc
      simp [find_in_names]
    · rcases List.mem_cons.mp h with h1 | h2
      · exact absurd h1 hc
      · simp only [find_in_names, if_neg hc, ih h2]

lemma get_jump_go_no_match {jumps : List (String × Nat)} {ns : List String}
    (h : ∀ j ∈ jumps, j.1 ∉ ns) : get_jump_go jumps ns = (none, none) := by
  induction jumps with
  | nil => rfl
  | cons j rest ih =>
    have h1 : find_in_names j.1 ns = none :=
      find_in_names_of_not_mem (h j (List.mem_cons_self j rest))
    simp only [get_jump_go, h1]
    exact ih fun x hx => h x (List.mem_cons_of_mem j hx)

lemma get_jump_first_match {pre : List (String × Nat)} {n : String} {t : Nat}
    (post : List (String × Nat)) {ns : List String}
    (hpre : ∀ j ∈ pre, j.1 ∉ ns) (hn : n ∈ ns) :
    get_jump (pre ++ (n, t) :: post) (some ns) = (some t, some n) := by
  induction pre with
  | nil =>
    simp only [get_jump, List.nil_append, get_jump_go,
      find_in_names_of_mem hn]
  | cons j rest ih =>
    have h1 : find_in_names j.1 ns = none :=
      find_in_names_of_not_mem (hpre j (List.mem_cons_self j rest))
    have := ih fun x hx => hpre x (List.mem_cons_of_mem j hx)
    simpa only [get_jump, List.cons_append, get_jump_go, h1] using this

/-- C7: `get_jump` scans the declared jump edges in declaration order and
returns the first edge whose marker name occurs among the candidate marker
names, paired with the matched name; it returns `(none, none)` when the
candidate list is absent, empty, or matches no declared edge. -/
theorem claim_get_jump_scan :
    (∀ jumps, get_jump jumps none = (none, none)) ∧
    (∀ jumps, get_jump jumps (some []) = (none, none)) ∧
    (∀ jumps ns, (∀ j ∈ jumps, j.1 ∉ ns) →
      get_jump jumps (some ns) = (none, none)) ∧
    (∀ pre n t post ns, (∀ j ∈ pre, j.1 ∉ ns) → n ∈ ns →
      get_jump (pre ++ (n, t) :: post) (some ns) = (some t, some n)) := by
  refine ⟨fun jumps => rfl, fun jumps => ?_, fun jumps ns h => ?_,
    fun pre n t post ns hpre hn => get_jump_first_match post hpre hn⟩
  · exact get_jump_go_no_match fun j _ => List.not_mem_nil j.1
  · exact get_jump_go_no_match h

/-- Concrete instance of C7: with edges `x ↦ 1, y ↦ 2` declared in that
order and both markers active, the first declared edge wins. -/
theorem claim_get_jump_scan_witness :
    get_jump [("x", 1), ("y", 2)] (some ["y", "x"]) = (some 1, some "x") :=
  claim_get_jump_scan.2.2.2 [] "x" 1 [("y", 2)] ["y", "x"]
    (fun j hj => absurd hj (List.not_mem_nil j)) (by decide)

/-- C3: when the current stage's pass pipeline fails on the module, the
schedule loop returns failure immediately: the failing stage is the last
entry of the visit trace, the module is returned as the passes left it
(no marker is consulted or cleared), and no jump target or default
successor is executed afterwards. -/
theorem claim_stage_failure_stops_run :
    ∀ (stages : List Stage) (fuel idx : Nat) (st : Stage) (m : ModuleOp),
      stages[idx]? = some st → (st.run m).succeeded = false →
      schedRunAux stages (fuel + 1) idx m =
        ⟨[idx], (st.run m).diags, RunResult.failure (st.run m).module⟩ := by
  intro stages fuel idx st m h1 h2
  simp [schedRunAux, h1, h2]

/-- Concrete instance of C3: a one-stage schedule whose pipeline fails
stops with that stage's diagnostics and module state. -/
theorem claim_stage_failure_stops_run_witness :
    schedRunAux demoFailStages 1 0 demoMod0 =
      ⟨[0], [⟨Severity.error, "invalid op", ["see here"]⟩],
        RunResult.failure demoMod0⟩ := by
  have h := claim_stage_failure_stops_run demoFailStages 0 0
    ⟨demoRunFail, [], none⟩ demoMod0 rfl rfl
  exact h.trans (by rfl)

/-- C1: after a stage succeeds, if several of its declared jump names are
simultaneously active as markers, the executor takes the first declared
jump edge whose name matches any active marker, clears exactly that
matched marker from the channel (every other active marker remains
present, and under a duplicate-free channel the matched one is gone), and
continues at that edge's target. -/
theorem claim_jump_resolution_clears_only_matched :
    ∀ (stages : List Stage) (fuel idx : Nat) (st : Stage) (m : ModuleOp)
      (pre : List (String × Nat)) (n : String) (t : Nat)
      (post : List (String × Nat)),
      stages[idx]? = some st →
      (st.run m).succeeded = true →
      st.jumps = pre ++ (n, t) :: post →
      (∀ j ∈ pre, j.1 ∉ (st.run m).module.markers) →
      n ∈ (st.run m).module.markers →
      schedRunAux stages (fuel + 1) idx m =
        ⟨idx :: (schedRunAux stages fuel t
            (remove_pipeline_jump_marker (st.run m).module n)).trace,
          (st.run m).diags ++ (schedRunAux stages fuel t
            (remove_pipeline_jump_marker (st.run m).module n)).diags,
          (schedRunAux stages fuel t
            (remove_pipeline_jump_marker (st.run m).module n)).result⟩ ∧
      (∀ x ∈ (st.run m).module.markers, x ≠ n →
        x ∈ (remove_pipeline_jump_marker (st.run m).module n).markers) ∧
      ((st.run m).module.markers.Nodup →
        n ∉ (remove_pipeline_jump_marker (st.run m).module n).markers) := by
  intro stages fuel idx st m pre n t post h1 h2 hj hpre hn
  have hget : get_jump st.jumps
      (get_pipeline_jump_markers (st.run m).module) = (some t, some n) := by
    rw [hj]
    exact get_jump_first_match post hpre hn
  refine ⟨?_, ?_, ?_⟩
  · simp [schedRunAux, h1, h2, hget]
  · intro x hx hxn
    exact (List.mem_erase_of_ne hxn).2 hx
  · intro hnd
    exact hnd.not_mem_erase

/-- Concrete instance of C1: edges `x ↦ 2, y ↦ 3` with both `x` and `y`
active; the executor picks `x`'s target, clears only `x`, and `y` stays
on the channel. -/
theorem claim_jump_resolution_clears_only_matched_witness :
    schedRunAux [demoJumpStage] 1 0 demoModXY =
      ⟨[0], [], RunResult.running 2 ⟨["y"], 5⟩⟩ := by
  have h := claim_jump_resolution_clears_only_matched [demoJumpStage] 0 0
    demoJumpStage demoModXY [] "x" 2 [("y", 3)] rfl rfl rfl
    (fun j hj => absurd hj (List.not_mem_nil j)) (by decide)
  exact h.1.trans (by rfl)

lemma schedRunAux_trace_cons (stages : List Stage) (fuel idx : Nat)
    (st : Stage) (m : ModuleOp) (h1 : stages[idx]? = some st) :
    ∃ tl, (schedRunAux stages (fuel + 1) idx m).trace = idx :: tl := by
  simp only [schedRunAux, h1]
  rcases hjt : get_jump st.jumps
    (get_pipeline_jump_markers (st.run m).module) with ⟨j1, j2⟩
  by_cases h2 : (st.run m).succeeded
  · cases j1 with
    | none =>
      cases hn : st.next_stage <;> simp [h2, hjt, hn]
    | some t =>
      cases j2 with
      | none => cases hn : st.next_stage <;> simp [h2, hjt, hn]
      | some c => simp [h2, hjt]
  · simp [h2]

/-- C10: the execution loop is do-while shaped: over a non-empty schedule
the first-declared stage is always fetched and executed (it heads the
visit trace on every invocation with any fuel), while over an empty
schedule the unconditional `stages[0]` access is out of bounds (undefined
behaviour in the C++, recorded as the `invalid` result). -/
theorem claim_run_presupposes_nonempty :
    (∀ (fuel : Nat) (m : ModuleOp),
      schedRunAux ([] : List Stage) (fuel + 1) 0 m =
        ⟨[], [], RunResult.invalid 0 m⟩) ∧
    (∀ (st : Stage) (rest : List Stage) (fuel : Nat) (m : ModuleOp),
      ∃ tl, (schedRunAux (st :: rest) (fuel + 1) 0 m).trace = 0 :: tl) := by
  constructor
  · intro fuel m
    rfl
  · intro st rest fuel m
    exact schedRunAux_trace_cons _ fuel 0 st m (by simp)

lemma get_jump_nil (names : Option (List String)) :
    get_jump [] names = (none, none) := by
  cases names <;> rfl

lemma schedRunAux_step_jump {stages : List Stage} {idx : Nat} {st : Stage}
    {m : ModuleOp} {t : Nat} {c : String} (fuel : Nat)
    (h1 : stages[idx]? = some st) (h2 : (st.run m).succeeded = true)
    (h3 : get_jump st.jumps (get_pipeline_jump_markers (st.run m).module) =
      (some t, some c)) :
    schedRunAux stages (fuel + 1) idx m =
      ⟨idx :: (schedRunAux stages fuel t
          (remove_pipeline_jump_marker (st.run m).module c)).trace,
        (st.run m).diags ++ (schedRunAux stages fuel t
          (remove_pipeline_jump_marker (st.run m).module c)).diags,
        (schedRunAux stages fuel t
          (remove_pipeline_jump_marker (st.run m).module c)).result⟩ := by
  simp [schedRunAux, h1, h2, h3]

lemma schedRunAux_step_fallthrough {stages : List Stage} {idx : Nat}
    {st : Stage} {m : ModuleOp} {nxt : Nat} (fuel : Nat)
    (h1 : stages[idx]? = some st) (h2 : (st.run m).succeeded = true)
    (h3 : get_jump st.jumps (get_pipeline_jump_markers (st.run m).module) =
      (none, none))
    (h4 : st.next_stage = some nxt) :
    schedRunAux stages (fuel + 1) idx m =
      ⟨idx :: (schedRunAux stages fuel nxt (st.run m).module).trace,
        (st.run m).diags ++
          (schedRunAux stages fuel nxt (st.run m).module).diags,
        (schedRunAux stages fuel nxt (st.run m).module).result⟩ := by
  simp [schedRunAux, h1, h2, h3, h4]

lemma schedRunAux_step_last {stages : List Stage} {idx : Nat} {st : Stage}
    {m : ModuleOp} (fuel : Nat)
    (h1 : stages[idx]? = some st) (h2 : (st.run m).succeeded = true)
    (h3 : get_jump st.jumps (get_pipeline_jump_markers (st.run m).module) =
      (none, none))
    (h4 : st.next_stage = none) :
    schedRunAux stages (fuel + 1) idx m =
      ⟨[idx], (st.run m).diags, RunResult.success (st.run m).module⟩ := by
  simp [schedRunAux, h1, h2, h3, h4]

lemma mapFind_isSome {m : List (Nat × Nat)} {k : Nat} :
    (mapFind m k).isSome = true ↔ k ∈ m.map Prod.fst := by
  induction m with
  | nil => simp [mapFind]
  | cons e rest ih =>
    by_cases h : e.1 = k
    · simp [mapFind, h]
    · simp [mapFind, h, ih, Ne.symm h]

lemma buildSchedule_three (dA dB dC : StageDesc)
    (hA : dA.name.str ≠ "") (hB : dB.name.str ≠ "") (hC : dC.name.str ≠ "")
    (hAB : dA.name.data ≠ dB.name.data)
    (hAC : dA.name.data ≠ dC.name.data)
    (hBC : dB.name.data ≠ dC.name.data)
    (jA : dA.jumps = []) (jB : dB.jumps = []) (jC : dC.jumps = []) :
    buildSchedule [dA, dB, dC] =
      some [⟨dA.run, [], some 1⟩, ⟨dB.run, [], some 2⟩,
        ⟨dC.run, [], none⟩] := by
  simp [buildSchedule, buildMap, mapFind, hA, hB, hC, hAB, hAC, hBC,
    buildStagesFrom, resolveJumps, jA, jB, jC]

/-- C2: for a schedule built from three stage descriptors `A, B, C` in
that order with no jump edges, over any module on which every stage's
pass pipeline succeeds and no pass writes a jump marker, the run visits
exactly stages `0, 1, 2` in declaration order, each exactly once, and
returns success with the threaded module. -/
theorem claim_linear_schedule_runs_in_order :
    ∀ (dA dB dC : StageDesc) (m : ModuleOp) (fuel : Nat),
      dA.name.str ≠ "" → dB.name.str ≠ "" → dC.name.str ≠ "" →
      dA.name.data ≠ dB.name.data → dA.name.data ≠ dC.name.data →
      dB.name.data ≠ dC.name.data →
      dA.jumps = [] → dB.jumps = [] → dC.jumps = [] →
      (∀ x, (dA.run x).succeeded = true) →
      (∀ x, (dB.run x).succeeded = true) →
      (∀ x, (dC.run x).succeeded = true) →
      (∀ x, ((dA.run x).module).markers = x.markers) →
      (∀ x, ((dB.run x).module).markers = x.markers) →
      (∀ x, ((dC.run x).module).markers = x.markers) →
      ∃ stages, buildSchedule [dA, dB, dC] = some stages ∧
        schedRunAux stages (fuel + 3) 0 m =
          ⟨[0, 1, 2],
            (dA.run m).diags ++ ((dB.run (dA.run m).module).diags ++
              (dC.run (dB.run (dA.run m).module).module).diags),
            RunResult.success
              (dC.run (dB.run (dA.run m).module).module).module⟩ := by
  intro dA dB dC m fuel hA hB hC hAB hAC hBC jA jB jC sA sB sC _ _ _
  refine ⟨_, buildSchedule_three dA dB dC hA hB hC hAB hAC hBC jA jB jC, ?_⟩
  have h0 : ([⟨dA.run, [], some 1⟩, ⟨dB.run, [], some 2⟩,
      ⟨dC.run, [], none⟩] : List Stage)[0]? = some ⟨dA.run, [], some 1⟩ := by
    simp
  have h1 : ([⟨dA.run, [], some 1⟩, ⟨dB.run, [], some 2⟩,
      ⟨dC.run, [], none⟩] : List Stage)[1]? = some ⟨dB.run, [], some 2⟩ := by
    simp
  have h2 : ([⟨dA.run, [], some 1⟩, ⟨dB.run, [], some 2⟩,
      ⟨dC.run, [], none⟩] : List Stage)[2]? = some ⟨dC.run, [], none⟩ := by
    simp
  rw [show fuel + 3 = (fuel + 2) + 1 by omega,
    schedRunAux_step_fallthrough (fuel + 2) h0 (sA m) (get_jump_nil _) rfl,
    show fuel + 2 = (fuel + 1) + 1 by omega,
    schedRunAux_step_fallthrough (fuel + 1) h1 (sB _) (get_jump_nil _) rfl,
    schedRunAux_step_last fuel h2 (sC _) (get_jump_nil _) rfl]

/-- Concrete instance of C2: the linear `A, B, C` description with
identity pipelines runs stages `0, 1, 2` once each and succeeds. -/
theorem claim_linear_schedule_runs_in_order_witness :
    ∃ stages, buildSchedule [linDescA, linDescB, linDescC] = some stages ∧
      schedRunAux stages (0 + 3) 0 demoMod0 =
        ⟨[0, 1, 2],
          (linDescA.run demoMod0).diags ++
            ((linDescB.run (linDescA.run demoMod0).module).diags ++
              (linDescC.run
                (linDescB.run (linDescA.run demoMod0).module).module).diags),
          RunResult.success
            (linDescC.run
              (linDescB.run
                (linDescA.run demoMod0).module).module).module⟩ :=
  claim_linear_schedule_runs_in_order linDescA linDescB linDescC demoMod0 0
    (by decide) (by decide) (by decide) (by decide) (by decide) (by decide)
    rfl rfl rfl (fun x => rfl) (fun x => rfl) (fun x => rfl)
    (fun x => rfl) (fun x => rfl) (fun x => rfl)

lemma cycle_run_alternates : ∀ fuel : Nat,
    (∀ m : ModuleOp, ∃ m2, schedRunAux cycleStages fuel 0 m =
      ⟨(List.range fuel).map (fun i => i % 2), [],
        RunResult.running (fuel % 2) m2⟩) ∧
    (∀ m : ModuleOp, ∃ m2, schedRunAux cycleStages fuel 1 m =
      ⟨(List.range fuel).map (fun i => (i + 1) % 2), [],
        RunResult.running ((fuel + 1) % 2) m2⟩) := by
  intro fuel
  induction fuel with
  | zero => exact ⟨fun m => ⟨m, rfl⟩, fun m => ⟨m, rfl⟩⟩
  | succ fuel ih =>
    refine ⟨fun m => ?_, fun m => ?_⟩
    · obtain ⟨m2, hm2⟩ := ih.2 m
      refine ⟨m2, ?_⟩
      rw [schedRunAux_step_fallthrough fuel
          (show cycleStages[0]? = some ⟨cycleDescA.run, [], some 1⟩ by
            simp [cycleStages]) rfl (get_jump_nil _) rfl,
        show ((⟨cycleDescA.run, [], some 1⟩ : Stage).run m).module = m
          from rfl,
        show ((⟨cycleDescA.run, [], some 1⟩ : Stage).run m).diags = []
          from rfl,
        hm2]
      simp [List.range_succ_eq_map, List.map_map, Function.comp,
        Nat.succ_eq_add_one]
    · obtain ⟨m2, hm2⟩ := ih.1 ⟨[], m.state⟩
      refine ⟨m2, ?_⟩
      rw [schedRunAux_step_jump fuel
          (show cycleStages[1]? = some ⟨cycleDescB.run, [("A", 0)], none⟩ by
            simp [cycleStages]) rfl rfl,
        show remove_pipeline_jump_marker
            ((⟨cycleDescB.run, [("A", 0)], none⟩ : Stage).run m).module "A" =
          ⟨[], m.state⟩ from rfl,
        show ((⟨cycleDescB.run, [("A", 0)], none⟩ : Stage).run m).diags = []
          from rfl,
        hm2]
      simp [List.range_succ_eq_map, List.map_map, Function.comp,
        Nat.succ_eq_add_one, Nat.add_mod_right]
      exact ⟨fun a _ => by omega, by omega⟩

/-- C6: the loop imposes no bound on jump iterations.  The cyclic
description (`B` jumps back to `A` and its pass re-asserts the marker on
every visit) constructs successfully, and for every fuel the run is still
iterating, having re-entered the two stages alternately (`0, 1, 0, 1, …`)
the whole time — i.e. the C++ loop never terminates.  With the
marker-writing pass removed, the same wiring falls through the default
next links and terminates normally after visiting `0, 1`. -/
theorem claim_unbounded_jump_cycle :
    buildSchedule cycleDescs = some cycleStages ∧
    (∀ (fuel : Nat) (m : ModuleOp), ∃ m2,
      schedRunAux cycleStages fuel 0 m =
        ⟨(List.range fuel).map (fun i => i % 2), [],
          RunResult.running (fuel % 2) m2⟩) ∧
    buildSchedule fallDescs = some fallStages ∧
    schedRunAux fallStages 2 0 demoMod0 =
      ⟨[0, 1], [], RunResult.success demoMod0⟩ := by
  exact ⟨rfl, fun fuel m => (cycle_run_alternates fuel).1 m, rfl, rfl⟩

/-- C4: the compiler context raises a fatal error exactly when the
schedule run fails.  On success it returns the module normally and the
buffered text is discarded; on failure the fatal error's text is the
aggregate of every buffered error-severity diagnostic (with notes), a
newline, and the textual dump of the representation's current state,
prefixed by the fixed failure banner, and every raised fatal error arises
that way. -/
theorem claim_context_fatal_iff_schedule_failure :
    ∀ (stages : List Stage) (fuel : Nat) (m : ModuleOp),
      (∀ m2, (schedRunAux stages fuel 0 m).result = RunResult.success m2 →
        compilerContextRun stages fuel m = some (Except.ok m2)) ∧
      (∀ m2, (schedRunAux stages fuel 0 m).result = RunResult.failure m2 →
        compilerContextRun stages fuel m = some (Except.error
          ("MLIR pipeline failed\n" ++
            (collectErrText (schedRunAux stages fuel 0 m).diags ++ "\n" ++
              print_module m2)))) ∧
      (∀ e, compilerContextRun stages fuel m = some (Except.error e) →
        ∃ m2, (schedRunAux stages fuel 0 m).result = RunResult.failure m2 ∧
          e = "MLIR pipeline failed\n" ++
            (collectErrText (schedRunAux stages fuel 0 m).diags ++ "\n" ++
              print_module m2)) := by
  intro stages fuel m
  refine ⟨fun m2 h => ?_, fun m2 h => ?_, fun e h => ?_⟩
  · simp [compilerContextRun, h]
  · simp [compilerContextRun, h]
  · simp only [compilerContextRun] at h
    rcases hr : (schedRunAux stages fuel 0 m).result with
        m2 | m2 | ⟨i, mm⟩ | ⟨i, mm⟩ <;>
      rw [hr] at h <;> simp at h
    exact ⟨m2, rfl, h.symm⟩

/-- Concrete instance of C4: a failing one-stage schedule yields one
fatal error whose text aggregates the buffered error diagnostic and the
module dump. -/
theorem claim_context_fatal_iff_schedule_failure_witness :
    compilerContextRun demoFailStages 1 demoMod0 = some (Except.error
      ("MLIR pipeline failed\n" ++
        (collectErrText (schedRunAux demoFailStages 1 0 demoMod0).diags ++
          "\n" ++ print_module demoMod0))) :=
  (claim_context_fatal_iff_schedule_failure demoFailStages 1 demoMod0).2.1
    demoMod0 rfl

lemma checker_iff (names : List String) (nm : String) :
    checker names nm = true ↔ stripAnonNS nm ∈ names := by
  simp [checker]

/-- C8: supplying `irPrinting` makes the stage constructor disable the
context's multithreading (serialized execution) and install IR printing
gated by the before/after name lists (a pass matches exactly when its
decoration-stripped name is in the list), with after-printing only on an
actual change of the representation (and not only on failure, at module
scope); `irDumpStderr` likewise disables multithreading. -/
theorem claim_ir_printing_config :
    (∀ (mt : Bool) (s : Settings) (p : IRPrintingSettings),
      s.irPrinting = some p →
      (mkPassManagerStage mt s).1 = false ∧
      ∃ cfg, (mkPassManagerStage mt s).2.irPrintingConfig = some cfg ∧
        (∀ nm, cfg.shouldPrintBefore nm = true ↔
          stripAnonNS nm ∈ p.printBefore) ∧
        (∀ nm, cfg.shouldPrintAfter nm = true ↔
          stripAnonNS nm ∈ p.printAfter) ∧
        cfg.printAfterOnlyOnChange = true ∧
        cfg.printAfterOnlyOnFailure = false ∧
        cfg.printModuleScope = true) ∧
    (∀ (mt : Bool) (s : Settings), s.irDumpStderr = true →
      (mkPassManagerStage mt s).1 = false) := by
  constructor
  · intro mt s p hp
    refine ⟨?_, ⟨checker p.printBefore, checker p.printAfter, true, true,
      false⟩, ?_, fun nm => checker_iff p.printBefore nm,
      fun nm => checker_iff p.printAfter nm, rfl, rfl, rfl⟩
    · simp [mkPassManagerStage, hp]
    · simp [mkPassManagerStage, hp]
  · intro mt s hd
    simp only [mkPassManagerStage, hd]
    cases hp : s.irPrinting <;> simp [hp]

/-- Concrete instance of C8: both demo settings disable multithreading. -/
theorem claim_ir_printing_config_witness :
    (mkPassManagerStage true demoIRSettings).1 = false ∧
    (mkPassManagerStage true demoDumpSettings).1 = false :=
  ⟨(claim_ir_printing_config.1 true demoIRSettings ⟨["p1"], ["p2"]⟩ rfl).1,
    claim_ir_printing_config.2 true demoDumpSettings rfl⟩

lemma mapFind_eq_none_iff {m : List (Nat × Nat)} {k : Nat} :
    mapFind m k = none ↔ k ∉ m.map Prod.fst := by
  rw [← mapFind_isSome]
  cases mapFind m k <;> simp

lemma entriesOf_fst : ∀ (descs : List StageDesc) (i : Nat),
    (entriesOf descs i).map Prod.fst = descs.map (fun d => d.name.data) := by
  intro descs
  induction descs with
  | nil => intro i; rfl
  | cons d rest ih => intro i; simp [entriesOf, ih]

lemma buildMap_none_of_mem : ∀ (descs : List StageDesc)
    (m : List (Nat × Nat)) (i : Nat),
    (∃ d ∈ descs, d.name.data ∈ m.map Prod.fst) →
    buildMap descs m i = none := by
  intro descs
  induction descs with
  | nil =>
    intro m i h
    rcases h with ⟨d, hd, _⟩
    cases hd
  | cons d rest ih =>
    intro m i h
    by_cases hs : d.name.str = ""
    · simp [buildMap, hs]
    · rcases h with ⟨d2, hd2, hmem⟩
      rcases List.mem_cons.mp hd2 with rfl | hd2r
      · have hf : (mapFind m d2.name.data).isSome = true :=
          mapFind_isSome.mpr hmem
        simp [buildMap, hs, hf]
      · by_cases hf : (mapFind m d.name.data).isSome = true
        · simp [buildMap, hs, hf]
        · have hrec : buildMap rest (m ++ [(d.name.data, i)]) (i + 1) =
              none := ih _ _ ⟨d2, hd2r, by simp [hmem]⟩
          simp [buildMap, hs, hf, hrec]

lemma buildMap_none_of_dup : ∀ (descs : List StageDesc)
    (m : List (Nat × Nat)) (i : Nat),
    ¬ (descs.map (fun d => d.name.data)).Nodup →
    buildMap descs m i = none := by
  intro descs
  induction descs with
  | nil =>
    intro m i h
    exact absurd List.nodup_nil h
  | cons d rest ih =>
    intro m i h
    rw [List.map_cons, List.nodup_cons] at h
    by_cases hs : d.name.str = ""
    · simp [buildMap, hs]
    · by_cases hf : (mapFind m d.name.data).isSome = true
      · simp [buildMap, hs, hf]
      · rcases not_and_or.mp h with h1 | h2
        · rw [not_not] at h1
          rcases List.mem_map.mp h1 with ⟨d2, hd2, hdat⟩
          have hrec : buildMap rest (m ++ [(d.name.data, i)]) (i + 1) =
              none := buildMap_none_of_mem rest _ _ ⟨d2, hd2, by simp [hdat]⟩
          simp [buildMap, hs, hf, hrec]
        · have hrec : buildMap rest (m ++ [(d.name.data, i)]) (i + 1) =
              none := ih _ _ h2
          simp [buildMap, hs, hf, hrec]

lemma buildMap_some_eq : ∀ (descs : List StageDesc)
    (m : List (Nat × Nat)) (i : Nat) (m2 : List (Nat × Nat)),
    buildMap descs m i = some m2 → m2 = m ++ entriesOf descs i := by
  intro descs
  induction descs with
  | nil =>
    intro m i m2 h
    simp only [buildMap] at h
    cases h
    simp [entriesOf]
  | cons d rest ih =>
    intro m i m2 h
    simp only [buildMap] at h
    by_cases hs : d.name.str = ""
    · rw [if_pos hs] at h
      cases h
    · rw [if_neg hs] at h
      by_cases hf : (mapFind m d.name.data).isSome = true
      · rw [if_pos hf] at h
        cases h
      · rw [if_neg hf] at h
        rw [ih _ _ _ h, entriesOf]
        simp

lemma resolveJumps_none : ∀ (m : List (Nat × Nat)) (js : List StringRef)
    (j : StringRef), j ∈ js → mapFind m j.data = none →
    resolveJumps m js = none := by
  intro m js
  induction js with
  | nil =>
    intro j h _
    cases h
  | cons j0 rest ih =>
    intro j hj hfind
    rcases List.mem_cons.mp hj with rfl | hjr
    · by_cases hs : j.str = ""
      · simp [resolveJumps, hs]
      · simp [resolveJumps, hs, hfind]
    · by_cases hs : j0.str = ""
      · simp [resolveJumps, hs]
      · have hrec := ih j hjr hfind
        cases hf : mapFind m j0.data <;> simp [resolveJumps, hs, hf, hrec]

lemma buildStagesFrom_none : ∀ (mm : List (Nat × Nat)) (total : Nat)
    (descs : List StageDesc) (i : Nat) (d : StageDesc),
    d ∈ descs → resolveJumps mm d.jumps = none →
    buildStagesFrom mm total descs i = none := by
  intro mm total descs
  induction descs with
  | nil =>
    intro i d h _
    cases h
  | cons d0 rest ih =>
    intro i d hd hres
    rcases List.mem_cons.mp hd with rfl | hdr
    · simp [buildStagesFrom, hres]
    · cases hr0 : resolveJumps mm d0.jumps with
      | none => simp [buildStagesFrom, hr0]
      | some js =>
        have hrec := ih (i + 1) d hdr hres
        simp [buildStagesFrom, hr0, hrec]

lemma mapFind_entries : ∀ (descs : List StageDesc) (i k : Nat),
    mapFind (entriesOf descs i) k = (idxOfData descs k).map (· + i) := by
  intro descs
  induction descs with
  | nil =>
    intro i k
    rfl
  | cons d rest ih =>
    intro i k
    by_cases h : d.name.data = k
    · simp [entriesOf, mapFind, idxOfData, h]
    · simp only [entriesOf, mapFind, idxOfData, h, if_neg, ite_false,
        ih (i + 1)]
      cases idxOfData rest k with
      | none => simp
      | some a =>
        simp
        omega

lemma idxOfData_spec : ∀ (descs : List StageDesc) (k t : Nat),
    idxOfData descs k = some t →
    ∃ d, descs[t]? = some d ∧ d.name.data = k := by
  intro descs
  induction descs with
  | nil =>
    intro k t h
    cases h
  | cons d rest ih =>
    intro k t h
    by_cases hd : d.name.data = k
    · rw [idxOfData, if_pos hd] at h
      cases h
      exact ⟨d, by simp, hd⟩
    · rw [idxOfData, if_neg hd] at h
      cases ho : idxOfData rest k with
      | none =>
        rw [ho] at h
        cases h
      | some t0 =>
        rw [ho] at h
        simp at h
        rcases ih k t0 ho with ⟨d2, hd2, hdat⟩
        refine ⟨d2, ?_, hdat⟩
        rw [← h]
        simpa using hd2

lemma resolveJumps_spec : ∀ (m : List (Nat × Nat)) (js : List StringRef)
    (l : List (String × Nat)), resolveJumps m js = some l →
    ∀ (p : Nat) (s : String) (t : Nat), l[p]? = some (s, t) →
    ∃ j, js[p]? = some j ∧ j.str = s ∧ mapFind m j.data = some t := by
  intro m js
  induction js with
  | nil =>
    intro l h p s t hp
    simp only [resolveJumps] at h
    cases h
    cases hp
  | cons j0 rest ih =>
    intro l h p s t hp
    simp only [resolveJumps] at h
    by_cases hs : j0.str = ""
    · rw [if_pos hs] at h
      cases h
    · rw [if_neg hs] at h
      cases hf : mapFind m j0.data with
      | none =>
        rw [hf] at h
        cases h
      | some t0 =>
        rw [hf] at h
        cases hr : resolveJumps m rest with
        | none =>
          rw [hr] at h
          cases h
        | some l0 =>
          rw [hr] at h
          cases h
          cases p with
          | zero =>
            simp at hp
            exact ⟨j0, by simp, hp.1, by rw [hf, hp.2]⟩
          | succ p0 =>
            simp only [List.getElem?_cons_succ] at hp
            rcases ih l0 hr p0 s t hp with ⟨j, hj1, hj2, hj3⟩
            exact ⟨j, by simpa using hj1, hj2, hj3⟩

lemma buildStagesFrom_spec : ∀ (mm : List (Nat × Nat)) (total : Nat)
    (descs : List StageDesc) (i : Nat) (sts : List Stage),
    buildStagesFrom mm total descs i = some sts →
    ∀ (k : Nat) (st : Stage), sts[k]? = some st →
    ∃ d, descs[k]? = some d ∧ st.run = d.run ∧
      resolveJumps mm d.jumps = some st.jumps := by
  intro mm total descs
  induction descs with
  | nil =>
    intro i sts h k st hk
    simp only [buildStagesFrom] at h
    cases h
    simp at hk
  | cons d0 rest ih =>
    intro i sts h k st hk
    simp only [buildStagesFrom] at h
    cases hr : resolveJumps mm d0.jumps with
    | none =>
      rw [hr] at h
      cases h
    | some js =>
      rw [hr] at h
      cases hb : buildStagesFrom mm total rest (i + 1) with
      | none =>
        rw [hb] at h
        cases h
      | some sts0 =>
        rw [hb] at h
        cases h
        cases k with
        | zero =>
          rw [List.getElem?_cons_zero] at hk
          cases hk
          exact ⟨d0, by simp, rfl, by rw [hr]⟩
        | succ k0 =>
          rw [List.getElem?_cons_succ] at hk
          rcases ih (i + 1) sts0 hb k0 st hk with ⟨d, h1, h2, h3⟩
          exact ⟨d, by simpa using h1, h2, h3⟩

/-- C5 fails as stated: a pipeline description whose two stage
descriptors declare the same name `"A"` — held in two distinct character
buffers — constructs successfully and yields a usable schedule, because
duplicate detection keys on the buffer address, not the characters. -/
theorem claim_duplicate_name_counterexample :
    (dupDescs.map fun d => d.name.str) = ["A", "A"] ∧
    (buildSchedule dupDescs).isSome = true := by
  exact ⟨rfl, rfl⟩

/-- C5 amended: construction fails (a construction-time assertion fires)
when two stage names share a character buffer, or when some declared
jump name's character buffer is not the buffer of any declared stage
name.  Equal-content names in distinct buffers are *not* rejected, and a
jump whose content matches a stage name but whose buffer differs counts
as dangling. -/
theorem claim_construction_fails_by_buffer :
    ∀ descs : List StageDesc,
      (¬ (descs.map fun d => d.name.data).Nodup ∨
        ∃ d ∈ descs, ∃ j ∈ d.jumps,
          j.data ∉ descs.map fun d => d.name.data) →
      buildSchedule descs = none := by
  intro descs h
  rcases h with h | ⟨d, hd, j, hj, hdat⟩
  · unfold buildSchedule
    rw [buildMap_none_of_dup descs [] 0 h]
  · unfold buildSchedule
    cases hb : buildMap descs [] 0 with
    | none => rfl
    | some mm =>
      have hmm : mm = entriesOf descs 0 := by
        simpa using buildMap_some_eq descs [] 0 mm hb
      have hfind : mapFind mm j.data = none := by
        rw [hmm, mapFind_eq_none_iff, entriesOf_fst]
        exact hdat
      exact buildStagesFrom_none mm descs.length descs 0 d hd
        (resolveJumps_none mm d.jumps j hj hfind)

/-- Concrete instance of the amended C5: a jump named `"A"` in a foreign
buffer is dangling even though a stage named `"A"` exists. -/
theorem claim_construction_fails_by_buffer_witness :
    buildSchedule danglingDescs = none :=
  claim_construction_fails_by_buffer danglingDescs
    (Or.inr ⟨⟨⟨0, "A"⟩, [⟨5, "A"⟩], demoRunOk⟩, by simp [danglingDescs],
      ⟨5, "A"⟩, by simp, by decide⟩)

/-- C9: the constructor's stage-name lookup table is keyed on the address
of the name's character data, not on its content: every resolved jump
edge points at the stage whose name buffer is the jump name's buffer
(whatever the characters say), and two stage descriptors with
equal-content names in distinct buffers are not detected as duplicates
(construction succeeds). -/
theorem claim_name_lookup_by_address :
    (∀ (descs : List StageDesc) (stages : List Stage) (k : Nat) (st : Stage)
        (p : Nat) (s : String) (t : Nat),
      buildSchedule descs = some stages → stages[k]? = some st →
      st.jumps[p]? = some (s, t) →
      ∃ d j d2, descs[k]? = some d ∧ d.jumps[p]? = some j ∧ j.str = s ∧
        descs[t]? = some d2 ∧ d2.name.data = j.data) ∧
    (∀ d1 d2 : StageDesc, d1.name.str = d2.name.str →
      d1.name.data ≠ d2.name.data → d1.name.str ≠ "" → d2.name.str ≠ "" →
      d1.jumps = [] → d2.jumps = [] →
      (buildSchedule [d1, d2]).isSome = true) := by
  constructor
  · intro descs stages k st p s t hb hk hp
    unfold buildSchedule at hb
    cases hm : buildMap descs [] 0 with
    | none =>
      rw [hm] at hb
      cases hb
    | some mm =>
      rw [hm] at hb
      have hmm : mm = entriesOf descs 0 := by
        simpa using buildMap_some_eq descs [] 0 mm hm
      rcases buildStagesFrom_spec mm descs.length descs 0 stages hb k st hk
        with ⟨d, hd, hrun, hres⟩
      rcases resolveJumps_spec mm d.jumps st.jumps hres p s t hp
        with ⟨j, hj, hjs, hjf⟩
      have hidx : idxOfData descs j.data = some t := by
        rw [hmm, mapFind_entries] at hjf
        cases hi : idxOfData descs j.data with
        | none =>
          rw [hi] at hjf
          cases hjf
        | some t0 =>
          rw [hi] at hjf
          simp at hjf
          rw [hjf]
      rcases idxOfData_spec descs j.data t hidx with ⟨d2, hd2, hdat⟩
      exact ⟨d, j, d2, hd, hj, hjs, hd2, hdat⟩
  · intro d1 d2 _ hdat h1 h2 hj1 hj2
    simp [buildSchedule, buildMap, mapFind, h1, h2, hdat, buildStagesFrom,
      resolveJumps, hj1, hj2]

/-- Concrete instance of C9: names with equal contents in buffers 0 and 1
construct without tripping duplicate detection. -/
theorem claim_name_lookup_by_address_witness :
    (buildSchedule [⟨⟨0, "A"⟩, [], demoRunOk⟩,
      ⟨⟨1, "A"⟩, [], demoRunOk⟩]).isSome = true :=
  claim_name_lookup_by_address.2 ⟨⟨0, "A"⟩, [], demoRunOk⟩
    ⟨⟨1, "A"⟩, [], demoRunOk⟩ rfl (by decide) (by decide) (by decide)
    rfl rfl
